import Mathlib

/-!
Verification of the preference-comparisons reward-learning subsystem of the
`imitation` repository against its natural-language specification.

The repository snapshot contains only `util/logger.py`, `scripts/common/rl.py`
and `tests/algorithms/test_preference_comparisons.py`; the module
`imitation/algorithms/preference_comparisons.py` that the tests exercise is
not part of the snapshot.  Components of that module are therefore modelled
from the specification (each such definition carries a doc comment starting
with `Modelled from the spec:`), with the repository's test file used to fix
concrete error messages and observable contracts.  `HierarchicalLogger` is
embedded directly from `src/imitation/util/logger.py`.
-/

namespace Imitation

/-- Modelled from the spec: a trajectory/fragment record (`TrajectoryWithRew`):
observations (length n+1), actions (length n), rewards (length n), optional
per-step auxiliary info, and a terminal flag.  Observation, action and reward
entries are modelled as integers (the numeric payload is opaque to every
claim considered here). -/
structure Trajectory where
  obs : List Int
  acts : List Int
  rews : List Int
  infos : Option (List Int)
  terminal : Bool
deriving DecidableEq, Repr

/-- Number of environment steps in a trajectory (`len(traj)` in the code). -/
def Trajectory.numSteps (t : Trajectory) : Nat := t.acts.length

/-- Well-formedness invariant from the spec:
`len(obs) == len(acts) + 1 == len(rews) + 1`. -/
def Trajectory.wf (t : Trajectory) : Prop :=
  t.obs.length = t.acts.length + 1 ∧ t.rews.length = t.acts.length

instance (t : Trajectory) : Decidable t.wf := by
  unfold Trajectory.wf; infer_instance

/-- A fragment pair: the ordered unit of comparison. -/
abbrev FragmentPair := Trajectory × Trajectory

/-- Numpy dtypes relevant to the preference dataset's validation. -/
inductive DType where
  | float32
  | float64
  | int64
deriving DecidableEq, Repr

/-- A numpy array of scalars, modelled as a dtype tag plus the list of the
stored scalars' bit patterns (for float32 preferences, the 32 raw bits, so
that bit-exact preservation is expressible). -/
structure NpArray where
  dtype : DType
  values : List Nat
deriving DecidableEq, Repr

/-- A stored sample: a fragment pair together with the float32 bit pattern of
its preference value. -/
abbrev PrefSample := FragmentPair × Nat

/-- Keep the last `m` elements of a list: the behaviour of a
`collections.deque` with `maxlen = m` after appending the whole list. -/
def keepLast (l : List α) (m : Nat) : List α := l.drop (l.length - m)

/-- Apply the capacity bound when one is set (`max_size = None` means
unbounded). -/
def keepLastOpt (l : List α) : Option Nat → List α
  | none => l
  | some m => keepLast l m

/-- Modelled from the spec: `PreferenceDataset` — a bounded, order-preserving
store of (fragment-pair, preference) samples with FIFO eviction
(`max_size`, default unbounded). -/
structure PreferenceDataset where
  maxSize : Option Nat
  samples : List PrefSample
deriving DecidableEq, Repr

/-- A freshly constructed (empty) dataset with the given capacity bound. -/
def PreferenceDataset.empty (maxSize : Option Nat) : PreferenceDataset :=
  ⟨maxSize, []⟩

def PreferenceDataset.length (d : PreferenceDataset) : Nat := d.samples.length

/-- Modelled from the spec: `PreferenceDataset.push`.  The batch must satisfy
`len(preferences) == len(fragment_pairs)` and the preferences' dtype must be
32-bit float; violations are rejected before any mutation (all-or-nothing
push).  The result pairs the post-call dataset with the raised error, if any:
on a validation error the dataset component is the unchanged input.  Error
messages are those asserted by `test_preference_dataset_errors`. -/
def PreferenceDataset.push (d : PreferenceDataset) (fragment_pairs : List FragmentPair)
    (preferences : NpArray) : PreferenceDataset × Option String :=
  if preferences.values.length ≠ fragment_pairs.length then
    (d, some "Unexpected preferences shape")
  else if preferences.dtype ≠ DType.float32 then
    (d, some "preferences should have dtype float32")
  else
    ({ d with samples := keepLastOpt (d.samples ++ fragment_pairs.zip preferences.values)
                d.maxSize },
     none)

/-- Push a single sample (a batch of one fragment pair with one float32
preference), as in `test_preference_dataset_queue`. -/
def PreferenceDataset.push1 (d : PreferenceDataset) (s : PrefSample) : PreferenceDataset :=
  (d.push [s.1] ⟨DType.float32, [s.2]⟩).1

lemma push1_eq (d : PreferenceDataset) (s : PrefSample) :
    d.push1 s =
      { d with samples := keepLastOpt (d.samples ++ [s]) d.maxSize } := by
  simp [PreferenceDataset.push1, PreferenceDataset.push, List.zip]

lemma keepLast_append_keepLast (l ys : List α) (m : Nat) :
    keepLast (keepLast l m ++ ys) m = keepLast (l ++ ys) m := by
  unfold keepLast
  rw [List.length_append, List.length_append, List.length_drop,
    List.drop_append_eq_append_drop, List.drop_append_eq_append_drop,
    List.drop_drop, List.length_drop]
  have hA : l.length - m + (l.length - (l.length - m) + ys.length - m)
      = l.length + ys.length - m := by omega
  have hB : l.length - (l.length - m) + ys.length - m - (l.length - (l.length - m))
      = l.length + ys.length - m - l.length := by omega
  rw [hA, hB]

lemma keepLastOpt_append_keepLastOpt (l ys : List α) (o : Option Nat) :
    keepLastOpt (keepLastOpt l o ++ ys) o = keepLastOpt (l ++ ys) o := by
  cases o with
  | none => rfl
  | some m => exact keepLast_append_keepLast l ys m

lemma foldl_push1 (xs : List PrefSample) :
    ∀ d : PreferenceDataset,
      keepLastOpt d.samples d.maxSize = d.samples →
      (xs.foldl PreferenceDataset.push1 d).maxSize = d.maxSize ∧
      (xs.foldl PreferenceDataset.push1 d).samples =
        keepLastOpt (d.samples ++ xs) d.maxSize := by
  induction xs with
  | nil =>
    intro d hd
    simpa using hd.symm
  | cons x xs ih =>
    intro d hd
    have hstep : (d.push1 x) =
        { d with samples := keepLastOpt (d.samples ++ [x]) d.maxSize } :=
      push1_eq d x
    have hinv : keepLastOpt (d.push1 x).samples (d.push1 x).maxSize
        = (d.push1 x).samples := by
      rw [hstep]
      show keepLastOpt (keepLastOpt (d.samples ++ [x]) d.maxSize) d.maxSize
        = keepLastOpt (d.samples ++ [x]) d.maxSize
      calc keepLastOpt (keepLastOpt (d.samples ++ [x]) d.maxSize) d.maxSize
          = keepLastOpt (keepLastOpt (d.samples ++ [x]) d.maxSize ++ []) d.maxSize := by
            rw [List.append_nil]
        _ = keepLastOpt ((d.samples ++ [x]) ++ []) d.maxSize :=
            keepLastOpt_append_keepLastOpt _ _ _
        _ = keepLastOpt (d.samples ++ [x]) d.maxSize := by rw [List.append_nil]
    obtain ⟨hmax, hsam⟩ := ih (d.push1 x) hinv
    rw [List.foldl_cons]
    refine ⟨by rw [hmax, hstep], ?_⟩
    rw [hsam, hstep]
    show keepLastOpt (keepLastOpt (d.samples ++ [x]) d.maxSize ++ xs) d.maxSize
      = keepLastOpt (d.samples ++ x :: xs) d.maxSize
    rw [keepLastOpt_append_keepLastOpt]
    rw [List.append_assoc]
    rfl

/-- C1: pushing one sample at a time into a `PreferenceDataset` with
`max_size = 5` never lets the length exceed 5, and the surviving samples are
exactly the most recently pushed ones (the last `min 5 (length xs)` of the
push sequence), in insertion order — FIFO (ring-buffer) eviction. -/
theorem preferenceDataset_fifo_eviction (xs : List PrefSample) :
    (xs.foldl PreferenceDataset.push1 (PreferenceDataset.empty (some 5))).length ≤ 5 ∧
    (xs.foldl PreferenceDataset.push1 (PreferenceDataset.empty (some 5))).samples =
      xs.drop (xs.length - 5) := by
  have h := foldl_push1 xs (PreferenceDataset.empty (some 5)) (by rfl)
  obtain ⟨hmax, hsam⟩ := h
  have hs : (xs.foldl PreferenceDataset.push1 (PreferenceDataset.empty (some 5))).samples
      = xs.drop (xs.length - 5) := by
    rw [hsam]
    simp [PreferenceDataset.empty, keepLastOpt, keepLast]
  refine ⟨?_, hs⟩
  unfold PreferenceDataset.length
  rw [hs, List.length_drop]
  omega

/-- C2: a push whose preferences length mismatches the fragment-pair count, or
whose preferences dtype is not float32, raises a validation error and leaves
the dataset completely unchanged (all-or-nothing validation before any
mutation). -/
theorem preferenceDataset_push_validation (d : PreferenceDataset)
    (fragment_pairs : List FragmentPair) (preferences : NpArray)
    (h : preferences.values.length ≠ fragment_pairs.length ∨
      preferences.dtype ≠ DType.float32) :
    (d.push fragment_pairs preferences).1 = d ∧
    (d.push fragment_pairs preferences).2.isSome := by
  unfold PreferenceDataset.push
  by_cases hlen : preferences.values.length = fragment_pairs.length
  · have hdt : preferences.dtype ≠ DType.float32 := by tauto
    simp [hlen, hdt]
  · simp [hlen]

/-- Witness for C2: a concrete invalid push (float64 preferences) is rejected
with the dataset unchanged. -/
theorem preferenceDataset_push_validation_witness :
    ((PreferenceDataset.empty none).push [] ⟨DType.float64, []⟩).1
        = PreferenceDataset.empty none ∧
    ((PreferenceDataset.empty none).push [] ⟨DType.float64, []⟩).2.isSome :=
  preferenceDataset_push_validation (PreferenceDataset.empty none) [] ⟨DType.float64, []⟩
    (Or.inr (by decide))

/-! ### Persistence (C3)

Modelled from the spec: `PreferenceDataset.save(path)` / `.load(path)` write
and read a single opaque serialized blob containing the ordered sample list
(the whole dataset object, as Python pickling does).  The blob is modelled as
a flat list of integers produced by a length-prefixed encoder; `load` is the
matching decoder. -/

/-- Length-prefixed encoding of a list of integers. -/
def encodeIntList (xs : List Int) : List Int := (Int.ofNat xs.length) :: xs

def decodeIntList : List Int → Option (List Int × List Int)
  | [] => none
  | n :: rest =>
    if 0 ≤ n ∧ n.toNat ≤ rest.length then some (rest.take n.toNat, rest.drop n.toNat)
    else none

def encodeNat (n : Nat) : List Int := [Int.ofNat n]

def decodeNat : List Int → Option (Nat × List Int)
  | [] => none
  | n :: rest => if 0 ≤ n then some (n.toNat, rest) else none

def encodeBool (b : Bool) : List Int := [cond b 1 0]

def decodeBool : List Int → Option (Bool × List Int)
  | [] => none
  | t :: rest =>
    if t = 1 then some (true, rest)
    else if t = 0 then some (false, rest)
    else none

def encodeOptIntList : Option (List Int) → List Int
  | none => [0]
  | some xs => 1 :: encodeIntList xs

def decodeOptIntList : List Int → Option (Option (List Int) × List Int)
  | [] => none
  | t :: rest =>
    if t = 0 then some (none, rest)
    else if t = 1 then
      match decodeIntList rest with
      | some (xs, s) => some (some xs, s)
      | none => none
    else none

def encodeOptNat : Option Nat → List Int
  | none => [0]
  | some n => 1 :: encodeNat n

def decodeOptNat : List Int → Option (Option Nat × List Int)
  | [] => none
  | t :: rest =>
    if t = 0 then some (none, rest)
    else if t = 1 then
      match decodeNat rest with
      | some (n, s) => some (some n, s)
      | none => none
    else none

def encodeTrajectory (t : Trajectory) : List Int :=
  encodeIntList t.obs ++ encodeIntList t.acts ++ encodeIntList t.rews ++
    encodeOptIntList t.infos ++ encodeBool t.terminal

def decodeTrajectory (s : List Int) : Option (Trajectory × List Int) := do
  let (obs, s1) ← decodeIntList s
  let (acts, s2) ← decodeIntList s1
  let (rews, s3) ← decodeIntList s2
  let (infos, s4) ← decodeOptIntList s3
  let (term, s5) ← decodeBool s4
  some (⟨obs, acts, rews, infos, term⟩, s5)

def encodeSample (s : PrefSample) : List Int :=
  encodeTrajectory s.1.1 ++ encodeTrajectory s.1.2 ++ encodeNat s.2

def decodeSample (s : List Int) : Option (PrefSample × List Int) := do
  let (f1, s1) ← decodeTrajectory s
  let (f2, s2) ← decodeTrajectory s1
  let (p, s3) ← decodeNat s2
  some (((f1, f2), p), s3)

def decodeSamples : Nat → List Int → Option (List PrefSample × List Int)
  | 0, s => some ([], s)
  | n + 1, s => do
    let (x, s1) ← decodeSample s
    let (xs, s2) ← decodeSamples n s1
    some (x :: xs, s2)

/-- Modelled from the spec: serialize the whole dataset wholesale to a single
blob (capacity bound, then the ordered sample list). -/
def PreferenceDataset.save (d : PreferenceDataset) : List Int :=
  encodeOptNat d.maxSize ++ encodeNat d.samples.length ++
    (d.samples.map encodeSample).flatten

/-- Modelled from the spec: restore a dataset wholesale from a persisted
blob; fails on a malformed blob. -/
def PreferenceDataset.load (blob : List Int) : Option PreferenceDataset := do
  let (ms, s1) ← decodeOptNat blob
  let (n, s2) ← decodeNat s1
  let (xs, s3) ← decodeSamples n s2
  if s3.isEmpty then some ⟨ms, xs⟩ else none

lemma decodeIntList_encode (xs rest : List Int) :
    decodeIntList (encodeIntList xs ++ rest) = some (xs, rest) := by
  simp [encodeIntList, decodeIntList, List.take_left, List.drop_left]

lemma decodeNat_encode (n : Nat) (rest : List Int) :
    decodeNat (encodeNat n ++ rest) = some (n, rest) := by
  simp [encodeNat, decodeNat]

lemma decodeBool_encode (b : Bool) (rest : List Int) :
    decodeBool (encodeBool b ++ rest) = some (b, rest) := by
  cases b <;> simp [encodeBool, decodeBool]

lemma decodeOptIntList_encode (o : Option (List Int)) (rest : List Int) :
    decodeOptIntList (encodeOptIntList o ++ rest) = some (o, rest) := by
  cases o with
  | none => simp [encodeOptIntList, decodeOptIntList]
  | some xs => simp [encodeOptIntList, decodeOptIntList, decodeIntList_encode]

lemma decodeOptNat_encode (o : Option Nat) (rest : List Int) :
    decodeOptNat (encodeOptNat o ++ rest) = some (o, rest) := by
  cases o with
  | none => simp [encodeOptNat, decodeOptNat]
  | some n => simp [encodeOptNat, decodeOptNat, decodeNat_encode]

lemma decodeTrajectory_encode (t : Trajectory) (rest : List Int) :
    decodeTrajectory (encodeTrajectory t ++ rest) = some (t, rest) := by
  cases t
  simp [encodeTrajectory, decodeTrajectory, List.append_assoc,
    decodeIntList_encode, decodeOptIntList_encode, decodeBool_encode]

lemma decodeSample_encode (s : PrefSample) (rest : List Int) :
    decodeSample (encodeSample s ++ rest) = some (s, rest) := by
  obtain ⟨⟨f1, f2⟩, p⟩ := s
  simp [encodeSample, decodeSample, List.append_assoc,
    decodeTrajectory_encode, decodeNat_encode]

lemma decodeSamples_encode (l : List PrefSample) (rest : List Int) :
    decodeSamples l.length ((l.map encodeSample).flatten ++ rest) = some (l, rest) := by
  induction l with
  | nil => simp [decodeSamples]
  | cons x xs ih =>
    simp [decodeSamples, List.append_assoc, decodeSample_encode, ih]

lemma decodeSamples_encode_nil (l : List PrefSample) :
    decodeSamples l.length (l.map encodeSample).flatten = some (l, []) := by
  simpa using decodeSamples_encode l []

/-- C3: the save/load round-trip is the identity on the stored dataset: for
every dataset (in particular every non-empty one), loading the saved blob
succeeds and yields a dataset of the same length whose samples, in order,
have identical fragment contents (observations, actions, rewards, infos,
terminal flags) and bit-identical float32 preference values. -/
theorem preferenceDataset_save_load_roundtrip (d : PreferenceDataset) :
    PreferenceDataset.load d.save = some d := by
  obtain ⟨ms, samples⟩ := d
  simp [PreferenceDataset.save, PreferenceDataset.load, List.append_assoc,
    decodeOptNat_encode, decodeNat_encode, decodeSamples_encode_nil]

/-! ### Reward-model classification and the preference model (C4, C5) -/

/-- Modelled from the spec: the shape of a reward model as seen by the core —
either a plain single network (`BasicRewardNet`), an ensemble of
`num_members` member networks (`RewardEnsemble`), or a wrapper
(`RewardNetWrapper`, identified by its concrete class name, e.g.
`"AddSTDRewardWrapper"` or `"NormalizedRewardNet"`) around an inner model. -/
inductive RewardNet where
  | basic
  | ensemble (numMembers : Nat)
  | wrapper (clsName : String) (inner : RewardNet)
deriving DecidableEq, Repr

/-- Unwrap all wrappers to reach the base model (`model.base` chain). -/
def RewardNet.baseModel : RewardNet → RewardNet
  | .wrapper _ inner => inner.baseModel
  | m => m

/-- Whether a model literally is an ensemble. -/
def RewardNet.isEnsembleNet : RewardNet → Bool
  | .ensemble _ => true
  | _ => false

/-- Modelled from the spec: the enum-like wrapping classification computed
once at construction — Plain, Ensemble, WrappedEnsemble (the one recognized
standard-deviation-bonus wrapper directly around an ensemble), or InvalidWrap
(any other wrapper around an ensemble). -/
inductive EnsembleWrapKind where
  | plain
  | ensembleKind
  | wrappedEnsemble
  | invalidWrap (offender : String)
deriving DecidableEq, Repr

/-- The one recognized wrapper class around an ensemble. -/
def stdWrapperName : String := "AddSTDRewardWrapper"

/-- Modelled from the spec: capability check classifying how a reward model
relates to ensembles. -/
def RewardNet.classify (m : RewardNet) : EnsembleWrapKind :=
  if m.baseModel.isEnsembleNet then
    match m with
    | .ensemble _ => .ensembleKind
    | .wrapper name inner =>
      if name = stdWrapperName ∧ inner.isEnsembleNet then .wrappedEnsemble
      else .invalidWrap name
    | .basic => .plain
  else .plain

/-- Modelled from the spec: the validation performed by the
`PreferenceComparisons` constructor before any training — if the reward model
is ensemble-backed via any wrapper other than the recognized
standard-deviation wrapper, fail with a validation error naming the offending
wrapper type (message format from
`test_init_raises_error_when_trying_use_improperly_wrapped_ensemble`). -/
def preferenceComparisonsInitCheck (m : RewardNet) : Except String Unit :=
  match m.classify with
  | .invalidWrap offender =>
    .error ("RewardEnsemble can only be wrapped by AddSTDRewardWrapper but found "
      ++ offender ++ ".")
  | _ => .ok ()

/-- C4: constructing the orchestrator with an ensemble wrapped by any wrapper
other than the recognized standard-deviation-bonus wrapper fails at
construction time with a validation error naming the offending wrapper type;
a plain ensemble or the recognized wrapper passes the check. -/
theorem preferenceComparisons_init_rejects_bad_wrapper
    (name : String) (k : Nat) (h : name ≠ stdWrapperName) :
    preferenceComparisonsInitCheck (.wrapper name (.ensemble k)) =
      .error ("RewardEnsemble can only be wrapped by AddSTDRewardWrapper but found "
        ++ name ++ ".") ∧
    preferenceComparisonsInitCheck (.ensemble k) = .ok () ∧
    preferenceComparisonsInitCheck (.wrapper stdWrapperName (.ensemble k)) = .ok () := by
  refine ⟨?_, by simp [preferenceComparisonsInitCheck, RewardNet.classify,
    RewardNet.baseModel, RewardNet.isEnsembleNet], by simp [preferenceComparisonsInitCheck,
    RewardNet.classify, RewardNet.baseModel, RewardNet.isEnsembleNet]⟩
  simp [preferenceComparisonsInitCheck, RewardNet.classify, RewardNet.baseModel,
    RewardNet.isEnsembleNet, h]

/-- Witness for C4: the concrete instance of
`test_init_raises_error_when_trying_use_improperly_wrapped_ensemble` — a
`NormalizedRewardNet` around a two-member ensemble is rejected with the
test's exact message. -/
theorem preferenceComparisons_init_rejects_bad_wrapper_witness :
    preferenceComparisonsInitCheck (.wrapper "NormalizedRewardNet" (.ensemble 2)) =
      .error "RewardEnsemble can only be wrapped by AddSTDRewardWrapper but found NormalizedRewardNet." ∧
    preferenceComparisonsInitCheck (.ensemble 2) = .ok () ∧
    preferenceComparisonsInitCheck (.wrapper stdWrapperName (.ensemble 2)) = .ok () :=
  preferenceComparisons_init_rejects_bad_wrapper "NormalizedRewardNet" 2 (by decide)

/-- Modelled from the spec: `PreferenceModel` — shares the reward model and
carries `noise_prob`, `discount_factor` and `threshold` (rationals in the
embedding). -/
structure PreferenceModel where
  model : RewardNet
  noise_prob : ℚ
  discount_factor : ℚ
  threshold : ℚ
deriving DecidableEq, Repr

/-- The queryable `is_ensemble` property: whether the wrapped model is
ensemble-backed (a capability check on the base model, not a type check). -/
def PreferenceModel.is_ensemble (pm : PreferenceModel) : Bool :=
  pm.model.baseModel.isEnsembleNet

/-- Discounted return of a reward sequence: `sum gamma^i * r_i`. -/
def discountedReturn (gamma : ℚ) (rews : List ℚ) : ℚ :=
  (rews.enum.map (fun p => gamma ^ p.1 * p.2)).sum

/-- Clamp a logit difference to `[-threshold, threshold]` before the sigmoid,
for numerical stability. -/
def clampQ (threshold x : ℚ) : ℚ := max (-threshold) (min threshold x)

/-- Modelled from the spec: `PreferenceModel.forward(fragment_pairs,
ensemble_member_index)`.  The numeric sigmoid and the external reward network
are abstracted as parameters `sigma` (the logistic function) and `memberRew`
(per-member reward sequence of a fragment).  Per the repository's test
`test_probability_model_raises_error_when_ensemble_member_index_not_provided`,
when the wrapped model is ensemble-backed and no `ensemble_member_index` is
supplied, forward raises `ValueError` up front (even for an empty batch);
otherwise it returns the per-pair preference probabilities
`noise_prob * 1/2 + (1 - noise_prob) * sigma(clamp(ret2 - ret1))`. -/
def PreferenceModel.forward (pm : PreferenceModel) (sigma : ℚ → ℚ)
    (memberRew : Nat → Trajectory → List ℚ) (fragment_pairs : List FragmentPair)
    (ensemble_member_index : Option Nat) : Except String (List ℚ) :=
  if pm.is_ensemble && ensemble_member_index.isNone then
    .error "`ensemble_member_index` required for ensemble models"
  else
    let member := ensemble_member_index.getD 0
    .ok (fragment_pairs.map (fun p =>
      let r1 := discountedReturn pm.discount_factor (memberRew member p.1)
      let r2 := discountedReturn pm.discount_factor (memberRew member p.2)
      pm.noise_prob * (1 / 2) +
        (1 - pm.noise_prob) * sigma (clampQ pm.threshold (r2 - r1))))

/-- A concrete two-member-ensemble preference model (the fixture
`ensemble_preference_model` of the test file). -/
def ensemblePreferenceModel : PreferenceModel :=
  { model := .ensemble 2
    noise_prob := 1 / 10
    discount_factor := 9 / 10
    threshold := 50 }

/-- C5 counterexample: the claim says that calling `forward` on an
ensemble-backed model with no `ensemble_member_index` evaluates all members
and returns stacked probabilities; on the concrete instance of
`test_probability_model_raises_error_when_ensemble_member_index_not_provided`
(a two-member ensemble called on an empty batch with no index), forward
instead raises the validation error, returning no probabilities at all. -/
theorem preferenceModel_forward_no_index_counterexample :
    ensemblePreferenceModel.forward (fun _ => 1 / 2) (fun _ _ => []) [] none =
      .error "`ensemble_member_index` required for ensemble models" := by
  rfl

/-- C5 (amended): whenever the wrapped reward model is ensemble-backed,
calling `forward` without an `ensemble_member_index` raises the validation
error `` `ensemble_member_index` required for ensemble models `` (for every
batch, including the empty one); supplying a member index makes the call
succeed. -/
theorem preferenceModel_forward_requires_member_index (pm : PreferenceModel)
    (sigma : ℚ → ℚ) (memberRew : Nat → Trajectory → List ℚ)
    (fragment_pairs : List FragmentPair) (i : Nat)
    (h : pm.is_ensemble = true) :
    pm.forward sigma memberRew fragment_pairs none =
      .error "`ensemble_member_index` required for ensemble models" ∧
    ∃ probs, pm.forward sigma memberRew fragment_pairs (some i) = .ok probs := by
  constructor
  · simp [PreferenceModel.forward, h]
  · refine ⟨fragment_pairs.map (fun p =>
      pm.noise_prob * (1 / 2) + (1 - pm.noise_prob) * sigma (clampQ pm.threshold
        (discountedReturn pm.discount_factor (memberRew i p.2) -
          discountedReturn pm.discount_factor (memberRew i p.1)))), ?_⟩
    simp [PreferenceModel.forward]

/-- Witness for C5 (amended): instantiated at the two-member ensemble model
on the empty batch. -/
theorem preferenceModel_forward_requires_member_index_witness :
    ensemblePreferenceModel.forward (fun _ => 1 / 2) (fun _ _ => []) [] none =
      .error "`ensemble_member_index` required for ensemble models" ∧
    ∃ probs, ensemblePreferenceModel.forward (fun _ => 1 / 2) (fun _ _ => []) []
      (some 0) = .ok probs :=
  preferenceModel_forward_requires_member_index ensemblePreferenceModel
    (fun _ => 1 / 2) (fun _ _ => []) [] 0 (by decide)

/-! ### Agent-driven trajectory generator (C6) -/

/-- Modelled from the spec: the observable state of `AgentTrainer` relevant
to the rollout-buffer hand-off protocol — the number of transitions
accumulated in the buffering wrapper since the last `sample` call
(`buffering_wrapper.n_transitions`). -/
structure AgentTrainer where
  bufferedTransitions : Nat
deriving DecidableEq, Repr

/-- Modelled from the spec: `AgentTrainer.train(steps)` must refuse to run
while undrained transitions remain in the rollout buffer, raising a
consistency error (message asserted by `test_transitions_left_in_buffer`)
rather than silently discarding or double-counting them; when the buffer is
drained it runs the agent's learning update, which repopulates the buffer
(`test_agent_trainer_populates_buffer`). -/
def AgentTrainer.train (t : AgentTrainer) (steps : Nat) : Except String AgentTrainer :=
  if t.bufferedTransitions ≠ 0 then
    .error ("There are " ++ toString t.bufferedTransitions ++
      " transitions left in the buffer. Call AgentTrainer.sample() first to clear them.")
  else
    .ok { bufferedTransitions := steps }

/-- C6: whenever the rollout buffer holds at least one transition accumulated
since the last `sample` call, `train` raises the consistency error (naming
the number of outstanding transitions) instead of running; `train` proceeds
only when the buffer has been drained. -/
theorem agentTrainer_train_refuses_undrained (t : AgentTrainer) (steps : Nat) :
    (t.bufferedTransitions ≠ 0 ∧
      t.train steps = .error ("There are " ++ toString t.bufferedTransitions ++
        " transitions left in the buffer. Call AgentTrainer.sample() first to clear them.")) ∨
    (t.bufferedTransitions = 0 ∧ ∃ t2, t.train steps = .ok t2) := by
  by_cases h : t.bufferedTransitions = 0
  · exact Or.inr ⟨h, ⟨{ bufferedTransitions := steps }, by simp [AgentTrainer.train, h]⟩⟩
  · exact Or.inl ⟨h, by simp [AgentTrainer.train, h]⟩

/-! ### Mixture of trajectory generators (C9) -/

/-- Modelled from the spec: the share of a total request allocated to member
`i` of an `m`-member mixture under the even split: `total / m`, plus one unit
of the remainder for the earliest `total % m` members. -/
def memberShare (total m i : Nat) : Nat :=
  total / m + if i < total % m then 1 else 0

/-- Modelled from the spec: even split of a request across `m` members with
the remainder distributed to the earliest members. -/
def splitEvenly (total m : Nat) : List Nat :=
  (List.range m).map (memberShare total m)

/-- Modelled from the spec: per-member step allocations made by
`MixtureOfTrajectoryGenerators.train(steps)` — the full request to every
member when `share_training_steps` is false, an even split when true. -/
def mixtureTrainAllocations (m : Nat) (share_training_steps : Bool)
    (steps : Nat) : List Nat :=
  if share_training_steps then splitEvenly steps m else List.replicate m steps

/-- Modelled from the spec: per-member allocations made by
`MixtureOfTrajectoryGenerators.sample(n)` — always an even split. -/
def mixtureSampleAllocations (m n : Nat) : List Nat := splitEvenly n m

lemma sum_map_add (l : List α) (f g : α → Nat) :
    (l.map (fun x => f x + g x)).sum = (l.map f).sum + (l.map g).sum := by
  induction l with
  | nil => simp
  | cons x xs ih => simp [ih]; ring

lemma sum_map_const_range (m q : Nat) :
    ((List.range m).map (fun _ => q)).sum = m * q := by
  induction m with
  | zero => simp
  | succ m ih =>
    rw [List.range_succ, List.map_append, List.sum_append, ih]
    simp [Nat.succ_mul]

lemma sum_indicator_range (r m : Nat) :
    ((List.range m).map (fun i => if i < r then (1 : Nat) else 0)).sum = min r m := by
  induction m with
  | zero => simp
  | succ m ih =>
    rw [List.range_succ, List.map_append, List.sum_append, ih]
    by_cases h : m < r <;> simp [h] <;> omega

lemma splitEvenly_sum (total m : Nat) (h : 1 ≤ m) :
    (splitEvenly total m).sum = total := by
  unfold splitEvenly memberShare
  rw [sum_map_add, sum_map_const_range, sum_indicator_range]
  have hmod : total % m < m := Nat.mod_lt _ (by omega)
  have := Nat.div_add_mod total m
  omega

lemma memberShare_le_of_le (total m : Nat) {i j : Nat} (hij : i ≤ j) :
    memberShare total m j ≤ memberShare total m i := by
  unfold memberShare
  by_cases hj : j < total % m <;> by_cases hi : i < total % m <;>
    simp [hj, hi] <;> omega

/-- C9: in an `m`-member mixture (`m ≥ 1`): with `share_training_steps`
false, `train(steps)` gives every member the full requested step count; with
it true, the per-member train allocations sum exactly to `steps` and each
member receives at least `steps / m`; and `sample(n)` always splits evenly —
allocations sum exactly to `n`, each member receives at least `n / m`, no
member receives more than `n / m + 1`, and the remainder goes to the
earliest members (allocations are non-increasing in the member index). -/
theorem mixture_train_sample_allocations (m steps n : Nat) (h : 1 ≤ m) :
    mixtureTrainAllocations m false steps = List.replicate m steps ∧
    (mixtureTrainAllocations m true steps).sum = steps ∧
    (∀ a ∈ mixtureTrainAllocations m true steps, steps / m ≤ a) ∧
    (mixtureSampleAllocations m n).sum = n ∧
    (∀ a ∈ mixtureSampleAllocations m n, n / m ≤ a ∧ a ≤ n / m + 1) ∧
    (mixtureSampleAllocations m n = (List.range m).map (memberShare n m) ∧
      ∀ i j : Nat, i ≤ j → memberShare n m j ≤ memberShare n m i) := by
  refine ⟨rfl, ?_, ?_, ?_, ?_, rfl, fun i j hij => memberShare_le_of_le n m hij⟩
  · simpa [mixtureTrainAllocations] using splitEvenly_sum steps m h
  · intro a ha
    simp only [mixtureTrainAllocations, if_true, splitEvenly, List.mem_map] at ha
    obtain ⟨i, _, rfl⟩ := ha
    unfold memberShare
    omega
  · simpa [mixtureSampleAllocations] using splitEvenly_sum n m h
  · intro a ha
    simp only [mixtureSampleAllocations, splitEvenly, List.mem_map] at ha
    obtain ⟨i, _, rfl⟩ := ha
    unfold memberShare
    constructor
    · omega
    · split <;> omega

/-- Witness for C9: the concrete sizes of
`test_mixture_of_trajectory_generators_train_and_sample` — two members,
eleven training steps, eleven samples. -/
theorem mixture_train_sample_allocations_witness :
    mixtureTrainAllocations 2 false 11 = List.replicate 2 11 ∧
    (mixtureTrainAllocations 2 true 11).sum = 11 ∧
    (∀ a ∈ mixtureTrainAllocations 2 true 11, 11 / 2 ≤ a) ∧
    (mixtureSampleAllocations 2 11).sum = 11 ∧
    (∀ a ∈ mixtureSampleAllocations 2 11, 11 / 2 ≤ a ∧ a ≤ 11 / 2 + 1) ∧
    (mixtureSampleAllocations 2 11 = (List.range 2).map (memberShare 11 2) ∧
      ∀ i j : Nat, i ≤ j → memberShare 11 2 j ≤ memberShare 11 2 i) :=
  mixture_train_sample_allocations 2 11 11 (by decide)

/-! ### Random fragmenter (C8) -/

/-- A simple 32-bit linear congruential generator modelling the seeded,
component-local numpy RNG streams. -/
def lcgNext (s : Nat) : Nat := (1664525 * s + 1013904223) % 4294967296

/-- Modelled from the spec: a fragment of length `L` starting at step `s` of
a parent trajectory — a copied contiguous slice, inheriting the parent's
terminal flag only if the fragment's last observation is the parent's last
observation (i.e. the fragment ends where the parent ends); otherwise
non-terminal. -/
def mkFragment (t : Trajectory) (s L : Nat) : Trajectory :=
  { obs := (t.obs.drop s).take (L + 1)
    acts := (t.acts.drop s).take L
    rews := (t.rews.drop s).take L
    infos := t.infos.map (fun inf => (inf.drop s).take L)
    terminal := t.terminal && (s + L == t.numSteps) }

/-- Oversampling weight of a trajectory: `length - fragment_length + 1`, so
that every valid start offset is equally likely across the corpus. -/
def fragWeight (L : Nat) (t : Trajectory) : Nat := t.numSteps - L + 1

/-- Weighted choice of a trajectory by cumulative weight walk (the model of
`np.random.choice` with probabilities proportional to `fragWeight`). -/
def pickWeighted (L r : Nat) : Trajectory → List Trajectory → Trajectory
  | x, [] => x
  | x, y :: ys => if r < fragWeight L x then x else pickWeighted L (r - fragWeight L x) y ys

/-- Modelled from the spec: draw `k` fragments of length `L`: each draw picks
a trajectory with replacement weighted by `fragWeight`, then a uniformly
random valid start offset in it. -/
def sampleFragments (L : Nat) (x : Trajectory) (kept : List Trajectory) :
    Nat → Nat → List Trajectory × Nat
  | 0, rng => ([], rng)
  | k + 1, rng =>
    let totalW := fragWeight L x + (kept.map (fragWeight L)).sum
    let t := pickWeighted L (rng % totalW) x kept
    let rng1 := lcgNext rng
    let s := rng1 % (t.numSteps - L + 1)
    let rng2 := lcgNext rng1
    let rest := sampleFragments L x kept k rng2
    (mkFragment t s L :: rest.1, rest.2)

/-- Group consecutive fragments into ordered pairs. -/
def pairUp : List α → List (α × α)
  | a :: b :: rest => (a, b) :: pairUp rest
  | _ => []

/-- Modelled from the spec: `RandomFragmenter.__call__(trajectories,
fragment_length, num_pairs)` — filters out trajectories shorter than
`fragment_length` (failing with the validation error asserted by
`test_fragments_too_short_error` if none remain), draws `2 * num_pairs`
weighted fragments and pairs them up. -/
def randomFragmenter (rng : Nat) (trajectories : List Trajectory)
    (fragment_length num_pairs : Nat) : Except String (List FragmentPair) :=
  match trajectories.filter (fun t => fragment_length ≤ t.numSteps) with
  | [] => .error "No trajectories are long enough for the desired fragment length."
  | x :: xs => .ok (pairUp (sampleFragments fragment_length x xs (2 * num_pairs) rng).1)

lemma pickWeighted_mem (L r : Nat) (x : Trajectory) (ys : List Trajectory) :
    pickWeighted L r x ys ∈ x :: ys := by
  induction ys generalizing x r with
  | nil => simp [pickWeighted]
  | cons y ys ih =>
    rw [pickWeighted]
    split
    · exact List.mem_cons_self _ _
    · exact List.mem_cons_of_mem _ (ih _ _)

lemma sampleFragments_mem (L : Nat) (x : Trajectory) (kept : List Trajectory) :
    ∀ (k rng : Nat) (frag : Trajectory),
      frag ∈ (sampleFragments L x kept k rng).1 →
      ∃ t ∈ x :: kept, ∃ s, s ≤ t.numSteps - L ∧ frag = mkFragment t s L := by
  intro k
  induction k with
  | zero => intro rng frag h; simp [sampleFragments] at h
  | succ k ih =>
    intro rng frag h
    rw [sampleFragments] at h
    rcases List.mem_cons.mp h with h1 | h2
    · set t := pickWeighted L
        (rng % (fragWeight L x + (kept.map (fragWeight L)).sum)) x kept with hT
      refine ⟨t, pickWeighted_mem _ _ _ _,
        lcgNext rng % (t.numSteps - L + 1), ?_, h1⟩
      have hlt : lcgNext rng % (t.numSteps - L + 1) < t.numSteps - L + 1 :=
        Nat.mod_lt _ (by omega)
      omega
    · exact ih _ _ h2

lemma pairUp_mem : ∀ (l : List α) (p : α × α), p ∈ pairUp l → p.1 ∈ l ∧ p.2 ∈ l
  | a :: b :: rest, p, hp => by
    rw [pairUp] at hp
    rcases List.mem_cons.mp hp with h1 | h2
    · subst h1; exact ⟨List.mem_cons_self _ _, List.mem_cons_of_mem _ (List.mem_cons_self _ _)⟩
    · have := pairUp_mem rest p h2
      exact ⟨List.mem_cons_of_mem _ (List.mem_cons_of_mem _ this.1),
        List.mem_cons_of_mem _ (List.mem_cons_of_mem _ this.2)⟩
  | [], p, hp => by simp [pairUp] at hp
  | [a], p, hp => by simp [pairUp] at hp

lemma getLast?_drop_of_lt (l : List α) :
    ∀ s : Nat, s < l.length → (l.drop s).getLast? = l.getLast? := by
  induction l with
  | nil => intro s h; simp at h
  | cons a l ih =>
    intro s h
    cases s with
    | zero => rfl
    | succ s =>
      rw [List.drop_succ_cons]
      have hs : s < l.length := by simpa using h
      rw [ih s hs]
      cases l with
      | nil => simp at hs
      | cons b l => rw [List.getLast?_cons_cons]

lemma mkFragment_ends_at_parent_end (t : Trajectory) (s L : Nat) (hwf : t.wf)
    (hend : s + L = t.numSteps) :
    (mkFragment t s L).obs.getLast? = t.obs.getLast? := by
  obtain ⟨hobs, _⟩ := hwf
  have hdroplen : (t.obs.drop s).length = L + 1 := by
    rw [List.length_drop, hobs]
    unfold Trajectory.numSteps at hend
    omega
  have htake : (t.obs.drop s).take (L + 1) = t.obs.drop s :=
    List.take_of_length_le (le_of_eq hdroplen)
  show ((t.obs.drop s).take (L + 1)).getLast? = t.obs.getLast?
  rw [htake]
  apply getLast?_drop_of_lt
  rw [hobs]
  unfold Trajectory.numSteps at hend
  omega

/-- C8: every fragment produced by the random fragmenter is a contiguous
slice `mkFragment t s L` of some input trajectory `t`, and its terminal flag
is set if and only if the parent's flag is set and the fragment ends at the
parent's last observation (`s + L = numSteps t`, in which case the fragment's
final observation is literally the parent's final observation); all other
fragments are non-terminal. -/
theorem randomFragmenter_terminal_flags (rng : Nat) (trajectories : List Trajectory)
    (L k : Nat) (pairs : List FragmentPair)
    (hwf : ∀ t ∈ trajectories, t.wf)
    (hok : randomFragmenter rng trajectories L k = .ok pairs) :
    ∀ p ∈ pairs, ∀ frag ∈ [p.1, p.2], ∃ t ∈ trajectories, ∃ s,
      s + L ≤ t.numSteps ∧ frag = mkFragment t s L ∧
      (frag.terminal = (t.terminal && decide (s + L = t.numSteps))) ∧
      (s + L = t.numSteps → frag.obs.getLast? = t.obs.getLast?) := by
  intro p hp frag hfrag
  unfold randomFragmenter at hok
  set kept := trajectories.filter (fun t => L ≤ t.numSteps) with hkept
  cases hk : kept with
  | nil => rw [hk] at hok; exact absurd hok (by simp)
  | cons x xs =>
    rw [hk] at hok
    have hpairs : pairs = pairUp (sampleFragments L x xs (2 * k) rng).1 := by
      have := hok
      simp only [Except.ok.injEq] at this
      exact this.symm
    have hmem : frag ∈ (sampleFragments L x xs (2 * k) rng).1 := by
      have h2 := pairUp_mem _ p (hpairs ▸ hp)
      rcases List.mem_cons.mp hfrag with h | h
      · exact h ▸ h2.1
      · rcases List.mem_cons.mp h with h | h
        · exact h ▸ h2.2
        · simp at h
    obtain ⟨t, ht, s, hs, hfrageq⟩ := sampleFragments_mem L x xs (2 * k) rng frag hmem
    have htkept : t ∈ kept := hk ▸ ht
    have htfilter := List.mem_filter.mp (hkept ▸ htkept)
    have httraj : t ∈ trajectories := htfilter.1
    have htL : L ≤ t.numSteps := by
      have := htfilter.2
      simpa using this
    refine ⟨t, httraj, s, by omega, hfrageq, ?_, ?_⟩
    · rw [hfrageq]
      show (t.terminal && (s + L == t.numSteps)) = (t.terminal && decide (s + L = t.numSteps))
      congr 1
    · intro hend
      rw [hfrageq]
      exact mkFragment_ends_at_parent_end t s L (hwf t httraj) hend

/-- The terminal trajectory of `test_fragments_terminal`
(observations `0,1,2,3`). -/
def fragTestTraj1 : Trajectory :=
  { obs := [0, 1, 2, 3]
    acts := [0, 0, 0]
    rews := [0, 0, 0]
    infos := none
    terminal := true }

/-- The non-terminal trajectory of `test_fragments_terminal`. -/
def fragTestTraj2 : Trajectory :=
  { obs := [0, 1, 2]
    acts := [0, 0]
    rews := [0, 0]
    infos := none
    terminal := false }

def fragTestTrajectories : List Trajectory := [fragTestTraj1, fragTestTraj2]

/-- The fragment pairs actually produced in the concrete run of
`test_fragments_terminal` (fragment length 2, two pairs, RNG state 0). -/
def fragTestPairs : List FragmentPair :=
  ((randomFragmenter 0 fragTestTrajectories 2 2).toOption).getD []

/-- Witness for C8: the concrete run of `test_fragments_terminal`
(fragment length 2, two pairs). -/
theorem randomFragmenter_terminal_flags_witness :
    (∀ t ∈ fragTestTrajectories, t.wf) ∧
    randomFragmenter 0 fragTestTrajectories 2 2 = .ok fragTestPairs ∧
    ∀ p ∈ fragTestPairs, ∀ frag ∈ [p.1, p.2], ∃ t ∈ fragTestTrajectories, ∃ s,
      s + 2 ≤ t.numSteps ∧ frag = mkFragment t s 2 ∧
      (frag.terminal = (t.terminal && decide (s + 2 = t.numSteps))) ∧
      (s + 2 = t.numSteps → frag.obs.getLast? = t.obs.getLast?) :=
  ⟨by decide, rfl,
    randomFragmenter_terminal_flags 0 fragTestTrajectories 2 2 fragTestPairs
      (by decide) rfl⟩

/-! ### HierarchicalLogger (C10) — embedded from `src/imitation/util/logger.py` -/

/-- The context state of `HierarchicalLogger`: the active sub-logger (if any,
identified by its subdirectory key), the active prefixes, the `_subdir` and
`_name` bookkeeping fields, and the cache of sub-loggers keyed by
subdirectory. -/
structure HierarchicalLoggerState where
  currentLogger : Option String
  prefixes : List String
  subdir : Option String
  name : Option String
  cachedLoggers : List String
deriving DecidableEq, Repr

/-- The state set up by `HierarchicalLogger.__init__`. -/
def HierarchicalLoggerState.init : HierarchicalLoggerState :=
  { currentLogger := none, prefixes := [], subdir := none, name := none,
    cachedLoggers := [] }

/-- Entering `HierarchicalLogger.accumulate_means(name)`
(logger.py lines 188–207): raises `RuntimeError` if an `accumulate_means`
context is already active, before any state mutation; otherwise computes the
subdirectory from the active prefixes and `name`, caches a sub-logger for it
if none exists, and activates the context. -/
def accumulateMeansEnter (st : HierarchicalLoggerState) (name : String) :
    HierarchicalLoggerState × Option String :=
  if st.currentLogger.isSome then
    (st, some "Nested `accumulate_means` context")
  else
    let sub := String.intercalate "/" (st.prefixes ++ [name])
    let cached :=
      if sub ∈ st.cachedLoggers then st.cachedLoggers else st.cachedLoggers ++ [sub]
    ({ st with
        currentLogger := some sub
        subdir := some sub
        name := some name
        cachedLoggers := cached },
     none)

/-- Entering `HierarchicalLogger.add_prefix(prefix)` (logger.py lines
141–148): raises `RuntimeError` if an `accumulate_means` context is active,
before the prefix list is touched; otherwise appends the prefix. -/
def addPfxEnter (st : HierarchicalLoggerState) (p : String) :
    HierarchicalLoggerState × Option String :=
  if st.currentLogger.isSome then
    (st, some "Cannot add prefix when accumulate_means context is already active.")
  else
    ({ st with prefixes := st.prefixes ++ [p] }, none)

/-- C10: the mean-accumulation contexts are non-reentrant — with an
`accumulate_means` context active, entering `accumulate_means` again raises
`RuntimeError`, and `add_prefix` raises `RuntimeError`, in both cases with
the logger's context state unchanged. -/
theorem hierarchicalLogger_nonreentrant (st : HierarchicalLoggerState)
    (nm p : String) (h : st.currentLogger.isSome) :
    accumulateMeansEnter st nm = (st, some "Nested `accumulate_means` context") ∧
    addPfxEnter st p =
      (st, some "Cannot add prefix when accumulate_means context is already active.") := by
  constructor <;> simp [accumulateMeansEnter, addPfxEnter, h]

/-- A concrete logger state with an `accumulate_means("dataset")` context
active. -/
def activeLoggerState : HierarchicalLoggerState :=
  { currentLogger := some "dataset"
    prefixes := []
    subdir := some "dataset"
    name := some "dataset"
    cachedLoggers := ["dataset"] }

/-- Witness for C10: the concrete active-context state rejects both re-entry
and `add_prefix("foo")`, unchanged. -/
theorem hierarchicalLogger_nonreentrant_witness :
    accumulateMeansEnter activeLoggerState "bar" =
      (activeLoggerState, some "Nested `accumulate_means` context") ∧
    addPfxEnter activeLoggerState "foo" =
      (activeLoggerState,
        some "Cannot add prefix when accumulate_means context is already active.") :=
  hierarchicalLogger_nonreentrant activeLoggerState "bar" "foo" (by decide)

/-! ### Fixed-dataset trajectory generator (C7) -/

/-- Fisher–Yates-style selection shuffle driven by the LCG stream: repeatedly
pick a position from the remaining list and move that element to the front,
returning the shuffled list and the advanced RNG state. -/
def shuffleGo : Nat → Nat → List α → List α × Nat
  | 0, rng, _ => ([], rng)
  | _ + 1, rng, [] => ([], rng)
  | n + 1, rng, x :: xs =>
    let l := x :: xs
    let i := rng % l.length
    let y := l.getD i x
    let rest := l.eraseIdx i
    let p := shuffleGo n (lcgNext rng) rest
    (y :: p.1, p.2)

def shuffle (rng : Nat) (l : List α) : List α × Nat := shuffleGo l.length rng l

/-- Modelled from the spec: `TrajectoryDataset` — wraps a pre-collected,
immutable set of trajectories together with a seeded, instance-local RNG
stream (no process-global randomness). -/
structure TrajectoryDataset where
  trajectories : List Trajectory
  rng : Nat
deriving DecidableEq, Repr

/-- Construct a `TrajectoryDataset` from trajectories and a seed. -/
def TrajectoryDataset.ofSeed (trajs : List Trajectory) (seed : Nat) : TrajectoryDataset :=
  ⟨trajs, lcgNext seed⟩

/-- Take whole trajectories from the front until the cumulative step count
reaches the request. -/
def takeSteps : Nat → List Trajectory → List Trajectory
  | _, [] => []
  | n, t :: ts => if n = 0 then [] else t :: takeSteps (n - t.numSteps) ts

/-- Modelled from the spec: `TrajectoryDataset.sample(steps)` — fails with a
capacity error naming the requested and available amounts if `steps` exceeds
the total available steps (`test_trajectory_dataset_too_long`); otherwise
shuffles the trajectory order with the instance's RNG stream (advancing it,
so that successive calls diverge) and returns whole trajectories until the
cumulative step count covers the request. -/
def TrajectoryDataset.sample (d : TrajectoryDataset) (steps : Nat) :
    Except String (List Trajectory × TrajectoryDataset) :=
  let avail := (d.trajectories.map Trajectory.numSteps).sum
  if avail < steps then
    .error ("Asked for " ++ toString steps ++ " transitions but only "
      ++ toString avail ++ " available")
  else
    let p := shuffle d.rng d.trajectories
    .ok (takeSteps steps p.1, ⟨d.trajectories, p.2⟩)

/-- The trajectory list returned by the first `sample` call of a freshly
seeded dataset (`none` if the request exceeds capacity). -/
def firstSample (trajs : List Trajectory) (seed n : Nat) : Option (List Trajectory) :=
  match (TrajectoryDataset.ofSeed trajs seed).sample n with
  | .error _ => none
  | .ok (l, _) => some l

/-- The trajectory lists returned by two successive `sample` calls on the
same freshly seeded dataset instance. -/
def sampleTwice (trajs : List Trajectory) (seed n : Nat) :
    Option (List Trajectory × List Trajectory) :=
  match (TrajectoryDataset.ofSeed trajs seed).sample n with
  | .error _ => none
  | .ok (l1, d1) =>
    match d1.sample n with
    | .error _ => none
    | .ok (l2, _) => some (l2, l1)

/-- Whether two successive sample results exist and differ. -/
def divergesB : Option (List Trajectory × List Trajectory) → Bool
  | some (l1, l2) => l1 != l2
  | none => false

/-- A distinguishable 15-step test trajectory (all observations equal `k`). -/
def seedTestTraj (k : Nat) : Trajectory :=
  { obs := List.replicate 16 (Int.ofNat k)
    acts := List.replicate 15 0
    rews := List.replicate 15 0
    infos := none
    terminal := false }

/-- Eight distinguishable trajectories, 120 steps in total. -/
def seedTestTrajs : List Trajectory := (List.range 8).map seedTestTraj

/-- C7: seeding of the fixed-dataset generator.  (i) Two independently
constructed generators over the same trajectories with the same seed return
identical results for the same sample request — in the embedding every
stochastic component owns explicit, instance-local RNG state, so the sample
result is a pure function of (trajectories, seed, request).  (ii) On a
concrete eight-trajectory corpus with 120 steps, sampling 100 steps twice
from the same instance returns different trajectory sequences, and (iii)
seeds 0 and 42 return different (and defined) sequences. -/
theorem trajectoryDataset_seeding_and_shuffle :
    (∀ (trajs : List Trajectory) (seed n : Nat),
      (TrajectoryDataset.ofSeed trajs seed).sample n =
        (TrajectoryDataset.ofSeed trajs seed).sample n) ∧
    divergesB (sampleTwice seedTestTrajs 0 100) = true ∧
    (firstSample seedTestTrajs 0 100).isSome = true ∧
    firstSample seedTestTrajs 0 100 ≠ firstSample seedTestTrajs 42 100 := by
  refine ⟨fun _ _ _ => rfl, ?_, ?_, ?_⟩ <;> decide

end Imitation
